import Mathlib

/-!
# Verification of the blend-contracts-v2 pool auction engine and reserve list

A shallow embedding of the auction engine (`pool/src/auctions/auction.rs`) and
the reserve-list storage helper (`pool/src/storage.rs`) of the
blend-contracts-v2 pool contract, together with theorems settling the spec's
claims about them.

Modelling conventions:
* `Address` is `Nat` (Soroban addresses are opaque identifiers; only equality
  is used by the embedded code).
* Soroban `Map<Address, i128>` is an association list `List (Address × Int)`
  with distinct keys; `map.set` replaces an existing key in place or appends.
* `i128` is `Int`.  The Soroban contract builds with overflow checks, so i128
  overflow aborts the transaction; the amounts in every claim are far below
  2^127 and the embedding uses unbounded `Int`.
* `soroban_fixed_point_math`'s `fixed_mul_floor x y d` is the floor of
  `x·y/d` and `fixed_mul_ceil` the ceiling (the crate computes the product at
  256 bits and divides with explicit rounding direction).  For the positive
  divisor `SCALAR_7` used throughout, Lean's `Int` division (euclidean) is
  exactly the floor, and the ceiling is `-((-n) / d)`.
* `panic_with_error!` is modelled by returning `Except.error`; the
  `unwrap_optimized` on a missing storage value (a host trap, not a
  `PoolError`) is a distinct `Abort.unwrapFailed` error.
* Temporary storage for auctions, keyed by `(auction_type, user)`, is an
  association list with `store_get` / `store_set` / `store_del`.
-/

namespace Blend

/-- Pool error variants used by the auction and reserve-list code
(`PoolError::BadRequest`, `PoolError::InvalidLiquidation`). -/
inductive PoolError where
  | BadRequest
  | InvalidLiquidation
deriving DecidableEq

/-- Modelled from the spec: the numeric error codes of `errors.rs` (the file
is not under `src/`): `BadRequest = 1200`, `InvalidLiquidation = 1211`. -/
def PoolError.code : PoolError → Nat
  | .BadRequest => 1200
  | .InvalidLiquidation => 1211

/-- Why an embedded operation aborts: a `panic_with_error!` with a
`PoolError`, or a host trap from `unwrap_optimized` on a missing value. -/
inductive Abort where
  | err : PoolError → Abort
  | unwrapFailed
deriving DecidableEq

instance {e a : Type} [DecidableEq e] [DecidableEq a] : DecidableEq (Except e a) := fun x y =>
  match x, y with
  | .error u, .error v =>
    if h : u = v then .isTrue (by rw [h]) else .isFalse (by intro hc; cases hc; exact h rfl)
  | .ok u, .ok v =>
    if h : u = v then .isTrue (by rw [h]) else .isFalse (by intro hc; cases hc; exact h rfl)
  | .error _, .ok _ => .isFalse (by intro hc; cases hc)
  | .ok _, .error _ => .isFalse (by intro hc; cases hc)

/-- Addresses are opaque identifiers; only equality is used. -/
abbrev Address := Nat

/-- A Soroban `Map<Address, i128>` as an association list with distinct keys. -/
abbrev AMap := List (Address × Int)

/-- `Map::set`: replace the value of an existing key in place, otherwise
append the new entry at the back. -/
def mapSet : AMap → Address → Int → AMap
  | [], k, v => [(k, v)]
  | (k2, v2) :: rest, k, v =>
    if k2 = k then (k, v) :: rest else (k2, v2) :: mapSet rest k v

/-- Modelled from the spec: `constants.rs` is not under `src/`; the spec fixes
the 7-decimal fixed-point scalar at `1e7`. -/
def SCALAR_7 : Int := 10000000

/-- Modelled from the spec: `constants.rs` is not under `src/`; the spec fixes
the reserve-list bound at 50 (`≤50 reserves total`). -/
def MAX_RESERVES : Nat := 50

/-- `SorobanFixedPoint::fixed_mul_floor`: `⌊x·y/d⌋` (for the positive
divisors used here, `Int` division is the floor). -/
def fixed_mul_floor (x y d : Int) : Int := x * y / d

/-- `SorobanFixedPoint::fixed_mul_ceil`: `⌈x·y/d⌉` (for a positive divisor,
`⌈n/d⌉ = -⌊(-n)/d⌋`). -/
def fixed_mul_ceil (x y d : Int) : Int := -(-(x * y) / d)

/-- `AuctionData` (auction.rs): the bid map (tokens the filler spends), the
lot map (tokens the filler receives) and the creation block. -/
structure AuctionData where
  bid : AMap
  lot : AMap
  block : Nat
deriving DecidableEq

/-- `AuctionType` (auction.rs): the three auction variants. -/
inductive AuctionType where
  | UserLiquidation
  | BadDebtAuction
  | InterestAuction
deriving DecidableEq

/-- `AuctionType::from_u32`: decode the `u32` type code, panicking with
`BadRequest` on any value other than 0, 1, 2. -/
def AuctionType.from_u32 : Nat → Except Abort AuctionType
  | 0 => .ok .UserLiquidation
  | 1 => .ok .BadDebtAuction
  | 2 => .ok .InterestAuction
  | _ => .error (.err .BadRequest)

/-- The auction temporary storage: entries keyed by `(auction_type, user)`. -/
abbrev AuctionStore := List ((Nat × Address) × AuctionData)

/-- `storage::get_auction` / `has_auction` lookup (returns `none` when the
key is absent). -/
def store_get : AuctionStore → Nat → Address → Option AuctionData
  | [], _, _ => none
  | (k, d) :: rest, t, u => if k = (t, u) then some d else store_get rest t u

/-- `storage::del_auction`: remove the entry for `(auction_type, user)`. -/
def store_del : AuctionStore → Nat → Address → AuctionStore
  | [], _, _ => []
  | (k, d) :: rest, t, u =>
    if k = (t, u) then store_del rest t u else (k, d) :: store_del rest t u

/-- `storage::set_auction`: bind `(auction_type, user)` to the auction data. -/
def store_set (st : AuctionStore) (t : Nat) (u : Address) (d : AuctionData) : AuctionStore :=
  ((t, u), d) :: store_del st t u

/-- `per_block_scalar` (auction.rs line 212): the modifier moves 0.5% ≡
50_000 (7 decimals) every block. -/
def per_block_scalar : Int := 50000

/-- The block-based auction modifiers of `scale_auction` (auction.rs lines
209–226), returned as `(bid_modifier, lot_modifier)` as a function of
`block_dif = ledger_sequence − auction.block`. -/
def auction_modifiers (block_dif : Int) : Int × Int :=
  if block_dif > 200 then
    (if block_dif < 400 then SCALAR_7 - (block_dif - 200) * per_block_scalar else 0,
     SCALAR_7)
  else
    (SCALAR_7, block_dif * per_block_scalar)

/-- The bid loop of `scale_auction` (auction.rs lines 230–243): for each bid
entry, the percent-scaled base rounds up, the positive remainder is stored to
the remaining auction, the bid-modifier scaling rounds up, and only positive
scaled values are stored.  The accumulator is `(to_fill bid, remaining bid)`. -/
def scale_bid_entries (percent bid_modifier : Int) :
    List (Address × Int) → AMap × AMap → AMap × AMap
  | [], acc => acc
  | (asset, amount) :: rest, (tf, rem) =>
    let to_fill_base := fixed_mul_ceil amount percent SCALAR_7
    let remaining_base := amount - to_fill_base
    let rem2 := if remaining_base > 0 then mapSet rem asset remaining_base else rem
    let to_fill_scaled := fixed_mul_ceil to_fill_base bid_modifier SCALAR_7
    let tf2 := if to_fill_scaled > 0 then mapSet tf asset to_fill_scaled else tf
    scale_bid_entries percent bid_modifier rest (tf2, rem2)

/-- The lot loop of `scale_auction` (auction.rs lines 244–257): identical to
the bid loop except both scalings round down. -/
def scale_lot_entries (percent lot_modifier : Int) :
    List (Address × Int) → AMap × AMap → AMap × AMap
  | [], acc => acc
  | (asset, amount) :: rest, (tf, rem) =>
    let to_fill_base := fixed_mul_floor amount percent SCALAR_7
    let remaining_base := amount - to_fill_base
    let rem2 := if remaining_base > 0 then mapSet rem asset remaining_base else rem
    let to_fill_scaled := fixed_mul_floor to_fill_base lot_modifier SCALAR_7
    let tf2 := if to_fill_scaled > 0 then mapSet tf asset to_fill_scaled else tf
    scale_lot_entries percent lot_modifier rest (tf2, rem2)

/-- `scale_auction` (auction.rs lines 189–264): reject a fill percent outside
[1,100]; compute the block-based modifiers; scale the bid and lot maps; return
the scaled auction and the remaining auction (`none` when the remaining lot
and bid are both empty).  `block_dif` uses `Nat` subtraction: the source
subtracts in `u32`, which aborts on underflow, and every claim has
`sequence ≥ block`. -/
def scale_auction (sequence : Nat) (auction_data : AuctionData) (percent_filled : Nat) :
    Except Abort (AuctionData × Option AuctionData) :=
  if percent_filled > 100 ∨ percent_filled = 0 then .error (.err .BadRequest)
  else
    let block_dif : Int := Int.ofNat (sequence - auction_data.block)
    let mods := auction_modifiers block_dif
    let percent_filled_i128 : Int := Int.ofNat percent_filled * 100000
    let fb := scale_bid_entries percent_filled_i128 mods.1 auction_data.bid ([], [])
    let fl := scale_lot_entries percent_filled_i128 mods.2 auction_data.lot ([], [])
    if fl.2 = [] ∧ fb.2 = [] then
      .ok (⟨fb.1, fl.1, auction_data.block⟩, none)
    else
      .ok (⟨fb.1, fl.1, auction_data.block⟩, some ⟨fb.2, fl.2, auction_data.block⟩)

/-- `fill` (auction.rs lines 140–173): reject a self-fill with
`InvalidLiquidation`; load the auction (`get_auction` traps when absent);
scale it; decode the auction type; settle the scaled side; then persist the
remainder under the same key or delete the auction.  The variant settlement
(`fill_user_liq_auction`, `fill_bad_debt_auction`, `fill_interest_auction`,
defined outside `src/`) mutates pool reserves and user positions only, never
the auction storage entry, and is omitted from the embedding. -/
def fill (st : AuctionStore) (sequence : Nat) (auction_type : Nat) (user filler : Address)
    (percent_filled : Nat) : Except Abort (AuctionData × AuctionStore) :=
  if user = filler then .error (.err .InvalidLiquidation)
  else
    match store_get st auction_type user with
    | none => .error .unwrapFailed
    | some auction_data =>
      match scale_auction sequence auction_data percent_filled with
      | .error er => .error er
      | .ok scaled =>
        match AuctionType.from_u32 auction_type with
        | .error er => .error er
        | .ok _ =>
          match scaled.2 with
          | some auction_to_store =>
            .ok (scaled.1, store_set st auction_type user auction_to_store)
          | none => .ok (scaled.1, store_del st auction_type user)

/-- `delete_stale_auction` (auction.rs lines 97–109): panic with `BadRequest`
when no auction exists for the key, or when `auction.block + 500 >
ledger_sequence`; otherwise delete the auction. -/
def delete_stale_auction (st : AuctionStore) (sequence : Nat) (auction_type : Nat)
    (user : Address) : Except Abort AuctionStore :=
  match store_get st auction_type user with
  | none => .error (.err .BadRequest)
  | some auction =>
    if auction.block + 500 > sequence then .error (.err .BadRequest)
    else .ok (store_del st auction_type user)

/-- The loop of `require_unique_addresses` (auction.rs lines 270–278) with the
already-seen keys of its temporary map made explicit. -/
def require_unique_addresses_from (seen : List Address) : List Address → Except Abort Unit
  | [] => .ok ()
  | a :: rest =>
    if seen.contains a then .error (.err .BadRequest)
    else require_unique_addresses_from (a :: seen) rest

/-- `require_unique_addresses`: panic with `BadRequest` when the list holds a
duplicate address. -/
def require_unique_addresses (list : List Address) : Except Abort Unit :=
  require_unique_addresses_from [] list

/-- `create_auction` (auction.rs lines 75–94): check both asset lists for
duplicates, decode the auction type (both panic with `BadRequest` on
failure), build the variant's auction data and store it.  The three variant
creators (defined outside `src/`) are abstracted as the `create_data`
argument; every validation failure happens before they run and before
anything is stored. -/
def create_auction (create_data : AuctionType → AuctionData) (st : AuctionStore)
    (auction_type : Nat) (user : Address) (bid lot : List Address) :
    Except Abort (AuctionData × AuctionStore) :=
  match require_unique_addresses bid with
  | .error er => .error er
  | .ok _ =>
    match require_unique_addresses lot with
    | .error er => .error er
    | .ok _ =>
      match AuctionType.from_u32 auction_type with
      | .error er => .error er
      | .ok ty =>
        let auction_data := create_data ty
        .ok (auction_data, store_set st auction_type user auction_data)

/-- `push_res_list` (storage.rs lines 480–496): panic with `BadRequest` when
the reserve list already holds `MAX_RESERVES` entries; otherwise push the
asset at the back and return the new index `len − 1` with the new list. -/
def push_res_list (res_list : List Address) (asset : Address) :
    Except Abort (Nat × List Address) :=
  if res_list.length ≥ MAX_RESERVES then .error (.err .BadRequest)
  else
    let new_list := res_list ++ [asset]
    .ok (new_list.length - 1, new_list)

end Blend

namespace Blend

/-! ## Helper lemmas -/

lemma mem_of_mem_mapSet (k : Address) (v : Int) :
    ∀ (m : AMap) (kv : Address × Int), kv ∈ mapSet m k v → kv ∈ m ∨ kv = (k, v) := by
  intro m
  induction m with
  | nil =>
    intro kv h
    simp only [mapSet, List.mem_singleton] at h
    exact Or.inr h
  | cons hd rest ih =>
    intro kv h
    obtain ⟨k2, v2⟩ := hd
    simp only [mapSet] at h
    split at h
    · rcases List.mem_cons.mp h with h1 | h2
      · exact Or.inr h1
      · exact Or.inl (List.mem_cons_of_mem _ h2)
    · rcases List.mem_cons.mp h with h1 | h2
      · exact Or.inl (List.mem_cons.mpr (Or.inl h1))
      · rcases ih kv h2 with h3 | h3
        · exact Or.inl (List.mem_cons_of_mem _ h3)
        · exact Or.inr h3

lemma mapSet_eq_append (k : Address) (v : Int) :
    ∀ (m : AMap), k ∉ m.map Prod.fst → mapSet m k v = m ++ [(k, v)] := by
  intro m
  induction m with
  | nil => intro _; rfl
  | cons hd rest ih =>
    intro h
    obtain ⟨k2, v2⟩ := hd
    simp only [List.map_cons, List.mem_cons] at h
    push_neg at h
    simp only [mapSet]
    rw [if_neg (fun he => h.1 he.symm), ih h.2]
    simp

lemma store_get_store_del_self (t : Nat) (u : Address) :
    ∀ (st : AuctionStore), store_get (store_del st t u) t u = none := by
  intro st
  induction st with
  | nil => rfl
  | cons hd rest ih =>
    obtain ⟨k, d⟩ := hd
    simp only [store_del]
    split
    · exact ih
    · simp only [store_get]
      next hk => rw [if_neg hk]; exact ih

lemma store_get_store_set_self (st : AuctionStore) (t : Nat) (u : Address) (d : AuctionData) :
    store_get (store_set st t u d) t u = some d := by
  simp [store_set, store_get]

lemma fixed_mul_ceil_cancel (x d : Int) (hd : d ≠ 0) : fixed_mul_ceil x d d = x := by
  unfold fixed_mul_ceil
  rw [show -(x * d) = (-x) * d by ring, Int.mul_ediv_cancel _ hd]
  ring

lemma fixed_mul_floor_cancel (x d : Int) (hd : d ≠ 0) : fixed_mul_floor x d d = x := by
  unfold fixed_mul_floor
  exact Int.mul_ediv_cancel _ hd

lemma fixed_mul_floor_zero (x : Int) : fixed_mul_floor x 0 SCALAR_7 = 0 := by
  unfold fixed_mul_floor
  simp

lemma fixed_mul_ceil_pos (x y : Int) (hx : 0 < x) (hy : 0 < y) :
    0 < fixed_mul_ceil x y SCALAR_7 := by
  have hxy : 0 < x * y := mul_pos hx hy
  unfold fixed_mul_ceil SCALAR_7
  omega

lemma scale_bid_entries_fst_pos (pm bm : Int) (entries : List (Address × Int)) :
    ∀ (tf rem : AMap), (∀ kv ∈ tf, 0 < kv.2) →
      ∀ kv ∈ (scale_bid_entries pm bm entries (tf, rem)).1, 0 < kv.2 := by
  induction entries with
  | nil =>
    intro tf rem h kv hkv
    exact h kv hkv
  | cons hd rest ih =>
    intro tf rem h kv hkv
    obtain ⟨a, v⟩ := hd
    simp only [scale_bid_entries] at hkv
    refine ih _ _ ?_ kv hkv
    intro kv2 hkv2
    split at hkv2
    · next hpos =>
      rcases mem_of_mem_mapSet _ _ _ _ hkv2 with h1 | h1
      · exact h kv2 h1
      · rw [h1]; exact hpos
    · exact h kv2 hkv2

lemma scale_lot_entries_fst_pos (pm lm : Int) (entries : List (Address × Int)) :
    ∀ (tf rem : AMap), (∀ kv ∈ tf, 0 < kv.2) →
      ∀ kv ∈ (scale_lot_entries pm lm entries (tf, rem)).1, 0 < kv.2 := by
  induction entries with
  | nil =>
    intro tf rem h kv hkv
    exact h kv hkv
  | cons hd rest ih =>
    intro tf rem h kv hkv
    obtain ⟨a, v⟩ := hd
    simp only [scale_lot_entries] at hkv
    refine ih _ _ ?_ kv hkv
    intro kv2 hkv2
    split at hkv2
    · next hpos =>
      rcases mem_of_mem_mapSet _ _ _ _ hkv2 with h1 | h1
      · exact h kv2 h1
      · rw [h1]; exact hpos
    · exact h kv2 hkv2

lemma scale_bid_entries_snd_of_cancel (pm bm : Int)
    (hpm : ∀ a : Int, fixed_mul_ceil a pm SCALAR_7 = a) (entries : List (Address × Int)) :
    ∀ (tf rem : AMap), (scale_bid_entries pm bm entries (tf, rem)).2 = rem := by
  induction entries with
  | nil => intro tf rem; rfl
  | cons hd rest ih =>
    intro tf rem
    obtain ⟨a, v⟩ := hd
    simp only [scale_bid_entries, hpm v, sub_self, gt_iff_lt, lt_irrefl, if_false]
    exact ih _ _

lemma scale_lot_entries_snd_of_cancel (pm lm : Int)
    (hpm : ∀ a : Int, fixed_mul_floor a pm SCALAR_7 = a) (entries : List (Address × Int)) :
    ∀ (tf rem : AMap), (scale_lot_entries pm lm entries (tf, rem)).2 = rem := by
  induction entries with
  | nil => intro tf rem; rfl
  | cons hd rest ih =>
    intro tf rem
    obtain ⟨a, v⟩ := hd
    simp only [scale_lot_entries, hpm v, sub_self, gt_iff_lt, lt_irrefl, if_false]
    exact ih _ _

lemma scale_lot_entries_fst_of_zero (pm : Int) (entries : List (Address × Int)) :
    ∀ (tf rem : AMap), (scale_lot_entries pm 0 entries (tf, rem)).1 = tf := by
  induction entries with
  | nil => intro tf rem; rfl
  | cons hd rest ih =>
    intro tf rem
    obtain ⟨a, v⟩ := hd
    simp only [scale_lot_entries, fixed_mul_floor_zero, gt_iff_lt, lt_irrefl, if_false]
    exact ih _ _

lemma scale_bid_entries_fst_of_full (pm : Int) (entries : List (Address × Int)) :
    ∀ (tf rem : AMap),
      (∀ kv ∈ entries, 0 < fixed_mul_ceil kv.2 pm SCALAR_7) →
      (entries.map Prod.fst).Nodup →
      (∀ k ∈ entries.map Prod.fst, k ∉ tf.map Prod.fst) →
      (scale_bid_entries pm SCALAR_7 entries (tf, rem)).1 =
        tf ++ entries.map (fun kv => (kv.1, fixed_mul_ceil kv.2 pm SCALAR_7)) := by
  induction entries with
  | nil => intro tf rem _ _ _; simp [scale_bid_entries]
  | cons hd rest ih =>
    intro tf rem hpos hnd hdisj
    obtain ⟨a, v⟩ := hd
    simp only [scale_bid_entries]
    rw [fixed_mul_ceil_cancel _ _ (by norm_num [SCALAR_7])]
    rw [if_pos (by simpa using hpos (a, v) (List.mem_cons_self _ _))]
    rw [mapSet_eq_append a _ tf (hdisj a (by simp))]
    rw [ih (tf ++ [(a, fixed_mul_ceil v pm SCALAR_7)]) _
      (fun kv hkv => hpos kv (List.mem_cons_of_mem _ hkv))
      (by simpa using (List.nodup_cons.mp (by simpa using hnd)).2)
      ?_]
    · simp
    · intro k hk
      simp only [List.map_append, List.mem_append, List.map_cons, List.map_nil,
        List.mem_singleton, not_or]
      refine ⟨hdisj k (by simp [hk]), ?_⟩
      have ha : a ∉ rest.map Prod.fst := (List.nodup_cons.mp (by simpa using hnd)).1
      intro he
      rw [he] at hk
      exact ha hk

lemma scale_auction_ok_inv (seq : Nat) (ad : AuctionData) (p : Nat) (tf : AuctionData)
    (rem : Option AuctionData) (h : scale_auction seq ad p = .ok (tf, rem)) :
    tf.block = ad.block ∧
    (∀ kv ∈ tf.bid, 0 < kv.2) ∧ (∀ kv ∈ tf.lot, 0 < kv.2) ∧
    (∀ r, rem = some r → r.block = ad.block ∧ ¬(r.bid = [] ∧ r.lot = [])) := by
  simp only [scale_auction] at h
  split at h
  · exact absurd h (by simp)
  · split at h
    · rw [Except.ok.injEq, Prod.mk.injEq] at h
      obtain ⟨h1, h2⟩ := h
      subst h1; subst h2
      refine ⟨rfl, ?_, ?_, ?_⟩
      · exact scale_bid_entries_fst_pos _ _ _ _ _ (by simp)
      · exact scale_lot_entries_fst_pos _ _ _ _ _ (by simp)
      · intro r hr; cases hr
    · next hne =>
      rw [Except.ok.injEq, Prod.mk.injEq] at h
      obtain ⟨h1, h2⟩ := h
      subst h1; subst h2
      refine ⟨rfl, ?_, ?_, ?_⟩
      · exact scale_bid_entries_fst_pos _ _ _ _ _ (by simp)
      · exact scale_lot_entries_fst_pos _ _ _ _ _ (by simp)
      · intro r hr
        rw [Option.some.injEq] at hr
        subst hr
        exact ⟨rfl, fun hc => hne ⟨hc.2, hc.1⟩⟩

lemma scale_auction_100_remainder_none (seq : Nat) (ad : AuctionData) :
    scale_auction seq ad 100 = .ok
      (⟨(scale_bid_entries (Int.ofNat 100 * 100000)
          (auction_modifiers (Int.ofNat (seq - ad.block))).1 ad.bid ([], [])).1,
        (scale_lot_entries (Int.ofNat 100 * 100000)
          (auction_modifiers (Int.ofNat (seq - ad.block))).2 ad.lot ([], [])).1,
        ad.block⟩, none) := by
  have hpm : (Int.ofNat 100 * 100000 : Int) = SCALAR_7 := by norm_num [SCALAR_7]
  have hceil : ∀ a : Int, fixed_mul_ceil a (Int.ofNat 100 * 100000) SCALAR_7 = a := by
    intro a; rw [hpm]; exact fixed_mul_ceil_cancel a _ (by norm_num [SCALAR_7])
  have hfloor : ∀ a : Int, fixed_mul_floor a (Int.ofNat 100 * 100000) SCALAR_7 = a := by
    intro a; rw [hpm]; exact fixed_mul_floor_cancel a _ (by norm_num [SCALAR_7])
  simp only [scale_auction]
  rw [if_neg (by omega)]
  rw [if_pos ⟨scale_lot_entries_snd_of_cancel _ _ hfloor _ _ _,
    scale_bid_entries_snd_of_cancel _ _ hceil _ _ _⟩]

lemma from_u32_error_of_gt (t : Nat) (h : 2 < t) :
    AuctionType.from_u32 t = .error (.err .BadRequest) := by
  match t, h with
  | n + 3, _ => rfl

lemma require_unique_from_ok_iff (l : List Address) :
    ∀ seen, require_unique_addresses_from seen l = .ok () ↔
      (l.Nodup ∧ ∀ a ∈ l, a ∉ seen) := by
  induction l with
  | nil => intro seen; simp [require_unique_addresses_from]
  | cons a rest ih =>
    intro seen
    simp only [require_unique_addresses_from]
    by_cases hc : seen.contains a
    · rw [if_pos hc]
      have ha : a ∈ seen := by simpa using hc
      constructor
      · intro h; exact absurd h (by simp)
      · rintro ⟨_, hall⟩
        exact absurd ha (hall a (List.mem_cons_self a rest))
    · rw [if_neg hc]
      have ha : a ∉ seen := by simpa using hc
      rw [ih (a :: seen)]
      constructor
      · rintro ⟨hnd, hall⟩
        refine ⟨List.nodup_cons.mpr ⟨?_, hnd⟩, ?_⟩
        · intro hmem
          exact hall a hmem (List.mem_cons_self a seen)
        · intro b hb
          rcases List.mem_cons.mp hb with hb1 | hb1
          · rw [hb1]; exact ha
          · intro hbs
            exact hall b hb1 (List.mem_cons_of_mem a hbs)
      · rintro ⟨hnd, hall⟩
        obtain ⟨hna, hnd2⟩ := List.nodup_cons.mp hnd
        refine ⟨hnd2, ?_⟩
        intro b hb hbs
        rcases List.mem_cons.mp hbs with hb1 | hb1
        · rw [hb1] at hb; exact hna hb
        · exact hall b (List.mem_cons_of_mem a hb) hb1

lemma require_unique_from_error_shape (l : List Address) :
    ∀ seen er, require_unique_addresses_from seen l = .error er → er = .err .BadRequest := by
  induction l with
  | nil => intro seen er h; cases h
  | cons a rest ih =>
    intro seen er h
    simp only [require_unique_addresses_from] at h
    split at h
    · cases h; rfl
    · exact ih _ _ h

lemma require_unique_ok_of_nodup (l : List Address) (h : l.Nodup) :
    require_unique_addresses l = .ok () :=
  (require_unique_from_ok_iff l []).mpr ⟨h, by simp⟩

lemma require_unique_error_of_not_nodup (l : List Address) (h : ¬ l.Nodup) :
    require_unique_addresses l = .error (.err .BadRequest) := by
  cases hres : require_unique_addresses l with
  | ok u =>
    cases u
    exact absurd ((require_unique_from_ok_iff l []).mp hres).1 h
  | error er =>
    rw [require_unique_from_error_shape l [] er hres]

end Blend

namespace Blend

/-! ## Claim theorems -/

/-- Claim C1, counterexample: at a block difference of exactly 500 (auction
block 1000, ledger sequence 1500) `delete_stale_auction` does not panic with
`BadRequest` as the claim states: it deletes the auction (the staleness test
`auction.block + 500 > ledger_sequence` is false at equality).  The repo's
own `test_delete_stale_auction` runs exactly this input and asserts the
deletion succeeds. -/
theorem C1_delete_stale_counterexample :
    delete_stale_auction [((2, 7), ⟨[(0, 100)], [(1, 100)], 1000⟩)] 1500 2 7 = .ok [] ∧
    delete_stale_auction [((2, 7), ⟨[(0, 100)], [(1, 100)], 1000⟩)] 1500 2 7 ≠
      .error (.err .BadRequest) := by
  decide

/-- Claim C1, amended: `delete_stale_auction` removes an existing auction
exactly when `ledger_sequence ≥ auction.block + 500` (so at a difference of
exactly 500 the auction is deleted), and panics with `BadRequest` when the
difference is smaller or when no auction exists for the given type and
user. -/
theorem C1_delete_stale_amended (st : AuctionStore) (seq t : Nat) (u : Address) :
    (store_get st t u = none →
      delete_stale_auction st seq t u = .error (.err .BadRequest)) ∧
    (∀ a, store_get st t u = some a →
      (seq < a.block + 500 →
        delete_stale_auction st seq t u = .error (.err .BadRequest)) ∧
      (a.block + 500 ≤ seq →
        delete_stale_auction st seq t u = .ok (store_del st t u) ∧
        store_get (store_del st t u) t u = none)) := by
  refine ⟨?_, ?_⟩
  · intro h
    simp [delete_stale_auction, h]
  · intro a ha
    refine ⟨?_, ?_⟩
    · intro hlt
      simp only [delete_stale_auction, ha]
      rw [if_pos (by omega)]
    · intro hge
      refine ⟨?_, store_get_store_del_self t u st⟩
      simp only [delete_stale_auction, ha]
      rw [if_neg (by omega)]

/-- Claim C1, witness for the amended theorem at block 1000, sequence 1500. -/
theorem C1_delete_stale_amended_witness :
    delete_stale_auction [((2, 7), ⟨[(0, 100)], [(1, 100)], 1000⟩)] 1500 2 7 =
      .ok (store_del [((2, 7), ⟨[(0, 100)], [(1, 100)], 1000⟩)] 2 7) ∧
    store_get (store_del [((2, 7), ⟨[(0, 100)], [(1, 100)], 1000⟩)] 2 7) 2 7 = none :=
  ((C1_delete_stale_amended [((2, 7), ⟨[(0, 100)], [(1, 100)], 1000⟩)] 1500 2 7).2
    ⟨[(0, 100)], [(1, 100)], 1000⟩ (by decide)).2 (by decide)

/-- Claim C2: for a creation block `b` and ledger sequence `s ≥ b`, with
`Δb = s − b`, the modifiers used by `scale_auction` are: `Δb ≤ 200` gives
`lot_mod = Δb·50_000`, `bid_mod = 1e7`; `200 < Δb < 400` gives
`lot_mod = 1e7`, `bid_mod = 1e7 − (Δb − 200)·50_000`; `Δb ≥ 400` gives
`lot_mod = 1e7`, `bid_mod = 0` (`auction_modifiers` returns the pair
`(bid_mod, lot_mod)`). -/
theorem C2_scale_modifiers (b s : Nat) (hbs : b ≤ s) :
    (Int.ofNat (s - b) ≤ 200 →
      auction_modifiers (Int.ofNat (s - b)) = (SCALAR_7, Int.ofNat (s - b) * 50000)) ∧
    (200 < Int.ofNat (s - b) → Int.ofNat (s - b) < 400 →
      auction_modifiers (Int.ofNat (s - b)) =
        (SCALAR_7 - (Int.ofNat (s - b) - 200) * 50000, SCALAR_7)) ∧
    (400 ≤ Int.ofNat (s - b) →
      auction_modifiers (Int.ofNat (s - b)) = (0, SCALAR_7)) := by
  refine ⟨?_, ?_, ?_⟩
  · intro h
    unfold auction_modifiers
    rw [if_neg (by omega)]
    rfl
  · intro h1 h2
    unfold auction_modifiers
    rw [if_pos (by omega), if_pos (by omega)]
    rfl
  · intro h
    unfold auction_modifiers
    rw [if_pos (by omega), if_neg (by omega)]

/-- Claim C2, witness in the decay region: b = 100, s = 400, Δb = 300. -/
theorem C2_scale_modifiers_witness :
    auction_modifiers (Int.ofNat (400 - 100)) =
      (SCALAR_7 - (Int.ofNat (400 - 100) - 200) * 50000, SCALAR_7) :=
  (C2_scale_modifiers 100 400 (by decide)).2.1 (by decide) (by decide)

/-- Claim C5: the percent validation of a fill — `scale_auction` panics with
`BadRequest` exactly when the percent is outside [1,100] (0 or above 100),
and succeeds exactly when the percent is in [1,100]. -/
theorem C5_fill_percent_validation (seq : Nat) (ad : AuctionData) (p : Nat) :
    (scale_auction seq ad p = .error (.err .BadRequest) ↔ (p = 0 ∨ 100 < p)) ∧
    ((∃ r, scale_auction seq ad p = .ok r) ↔ (1 ≤ p ∧ p ≤ 100)) := by
  constructor
  · constructor
    · intro h
      by_contra hc
      push_neg at hc
      simp only [scale_auction] at h
      rw [if_neg (by omega)] at h
      split at h <;> simp at h
    · intro h
      simp only [scale_auction]
      rw [if_pos (by omega)]
  · constructor
    · rintro ⟨r, hr⟩
      by_contra hc
      push_neg at hc
      simp only [scale_auction] at hr
      rw [if_pos (by omega)] at hr
      simp at hr
    · rintro ⟨h1, h2⟩
      simp only [scale_auction]
      rw [if_neg (by omega)]
      split
      · exact ⟨_, rfl⟩
      · exact ⟨_, rfl⟩

/-- Claim C6: for every auction type code and every storage state, filling
with the filler equal to the auction's subject user panics with
`InvalidLiquidation` (code 1211); the result does not depend on storage, so
the panic happens before any state is read or modified. -/
theorem C6_self_fill (st : AuctionStore) (seq t : Nat) (u : Address) (p : Nat) :
    fill st seq t u u p = .error (.err .InvalidLiquidation) ∧
    PoolError.InvalidLiquidation.code = 1211 := by
  constructor
  · simp [fill]
  · rfl

/-- Claim C7: `create_auction` panics with `BadRequest` when the bid list or
the lot list holds a duplicate address, or when the auction type code is not
0, 1 or 2; the error is returned before anything is stored. -/
theorem C7_create_auction_validation (cd : AuctionType → AuctionData) (st : AuctionStore)
    (t : Nat) (u : Address) (bid lot : List Address)
    (h : ¬ bid.Nodup ∨ ¬ lot.Nodup ∨ 2 < t) :
    create_auction cd st t u bid lot = .error (.err .BadRequest) := by
  by_cases hb : bid.Nodup
  · by_cases hl : lot.Nodup
    · have ht : 2 < t := by tauto
      simp only [create_auction, require_unique_ok_of_nodup bid hb,
        require_unique_ok_of_nodup lot hl, from_u32_error_of_gt t ht]
    · simp only [create_auction, require_unique_ok_of_nodup bid hb,
        require_unique_error_of_not_nodup lot hl]
  · simp only [create_auction, require_unique_error_of_not_nodup bid hb]

/-- Claim C7, witness: bid = [A, B, A] is rejected with `BadRequest`. -/
theorem C7_create_auction_validation_witness :
    create_auction (fun _ => ⟨[], [], 0⟩) [] 0 5 [1, 2, 1] [3] =
      .error (.err .BadRequest) :=
  C7_create_auction_validation (fun _ => ⟨[], [], 0⟩) [] 0 5 [1, 2, 1] [3]
    (Or.inl (by decide))

/-- Claim C8: `push_res_list` appends the asset at the back and returns the
previous length as the new index when the list holds fewer than
`MAX_RESERVES = 50` entries (so the list never exceeds 50 entries), and
panics with `BadRequest` when the list already holds 50. -/
theorem C8_push_res_list (res_list : List Address) (asset : Address) :
    (res_list.length < MAX_RESERVES →
      push_res_list res_list asset = .ok (res_list.length, res_list ++ [asset]) ∧
      (res_list ++ [asset]).length = res_list.length + 1 ∧
      (res_list ++ [asset]).length ≤ MAX_RESERVES) ∧
    (MAX_RESERVES ≤ res_list.length →
      push_res_list res_list asset = .error (.err .BadRequest)) := by
  constructor
  · intro h
    refine ⟨?_, by simp, ?_⟩
    · simp only [push_res_list]
      rw [if_neg (by omega)]
      simp
    · simp only [List.length_append, List.length_singleton]
      omega
  · intro h
    simp only [push_res_list]
    rw [if_pos h]

/-- Claim C8, witness: pushing onto a one-element list returns index 1. -/
theorem C8_push_res_list_witness :
    push_res_list [4] 9 = .ok (([4] : List Address).length, [4] ++ [9]) :=
  ((C8_push_res_list [4] 9).1 (by decide)).1

end Blend

namespace Blend

/-- Claim C3: when a fill succeeds, the returned scaled auction holds only
positive (non-zero) bid and lot entries, and storage afterwards holds, under
the same `(auction_type, user)` key, exactly the remainder that
`scale_auction` produced: `none` (deleted) when the remaining bid and lot are
both empty, otherwise a non-empty remainder whose `block` equals the original
auction's creation block. -/
theorem C3_fill_storage (st : AuctionStore) (seq t : Nat) (u f : Address) (p : Nat)
    (ad : AuctionData) (st2 : AuctionStore)
    (h : fill st seq t u f p = .ok (ad, st2)) :
    ((∀ kv ∈ ad.bid, 0 < kv.2) ∧ (∀ kv ∈ ad.lot, 0 < kv.2)) ∧
    (∀ orig, store_get st t u = some orig →
      scale_auction seq orig p = .ok (ad, store_get st2 t u) ∧
      ∀ rem, store_get st2 t u = some rem →
        ¬(rem.bid = [] ∧ rem.lot = []) ∧ rem.block = orig.block) := by
  simp only [fill] at h
  split at h
  · simp at h
  · split at h
    · simp at h
    · next orig hget =>
      split at h
      · simp at h
      · next scaled hscale =>
        split at h
        · simp at h
        · next ty hft =>
          have hinv := scale_auction_ok_inv seq orig p scaled.1 scaled.2 (by rw [hscale])
          split at h
          · next r hrem =>
            rw [Except.ok.injEq, Prod.mk.injEq] at h
            obtain ⟨h1, h2⟩ := h
            constructor
            · rw [← h1]
              exact ⟨hinv.2.1, hinv.2.2.1⟩
            · intro orig2 horig2
              rw [hget, Option.some.injEq] at horig2
              subst horig2
              have hsome : store_get st2 t u = some r := by
                rw [← h2]
                exact store_get_store_set_self st t u r
              refine ⟨?_, ?_⟩
              · rw [hsome, hscale, ← h1, ← hrem]
              · intro rem hrem2
                rw [hsome, Option.some.injEq] at hrem2
                subst hrem2
                have hr := hinv.2.2.2 r hrem
                exact ⟨hr.2, hr.1⟩
          · next hrem =>
            rw [Except.ok.injEq, Prod.mk.injEq] at h
            obtain ⟨h1, h2⟩ := h
            constructor
            · rw [← h1]
              exact ⟨hinv.2.1, hinv.2.2.1⟩
            · intro orig2 horig2
              rw [hget, Option.some.injEq] at horig2
              subst horig2
              have hempty : store_get st2 t u = none := by
                rw [← h2]
                exact store_get_store_del_self t u st
              refine ⟨?_, ?_⟩
              · rw [hempty, hscale, ← h1, ← hrem]
              · intro rem hrem2
                rw [hempty] at hrem2
                cases hrem2

/-- Claim C3, witness: a 50% fill at Δb = 100 persists the non-empty
remainder at the original block. -/
theorem C3_fill_storage_witness :
    scale_auction 1100 ⟨[(1, 100)], [(2, 100)], 1000⟩ 50 =
      .ok (⟨[(1, 50)], [(2, 25)], 1000⟩,
        store_get [((0, 7), ⟨[(1, 50)], [(2, 50)], 1000⟩)] 0 7) :=
  ((C3_fill_storage [((0, 7), ⟨[(1, 100)], [(2, 100)], 1000⟩)] 1100 0 7 8 50
      ⟨[(1, 50)], [(2, 25)], 1000⟩ [((0, 7), ⟨[(1, 50)], [(2, 50)], 1000⟩)] (by decide)).2
    ⟨[(1, 100)], [(2, 100)], 1000⟩ (by decide)).1

/-- Claim C4: in `scale_auction`, for every bid entry both the percent-scaled
base and the modifier-scaled value are ceilings (the least integers at or
above `a·p/100` and `x·m/1e7`), for every lot entry both are floors, and the
concrete dust example from the spec — auction `{bid: A→1, lot: B→1,
block=1000}` filled 99% at sequence 1300 — yields scaled `{bid: A→1, lot: ∅}`
and remainder `{bid: ∅, lot: B→1}`. -/
theorem C4_scale_rounding :
    (∀ a p : Int,
      a * p ≤ 100 * fixed_mul_ceil a (p * 100000) SCALAR_7 ∧
      100 * fixed_mul_ceil a (p * 100000) SCALAR_7 < a * p + 100 ∧
      100 * fixed_mul_floor a (p * 100000) SCALAR_7 ≤ a * p ∧
      a * p < 100 * fixed_mul_floor a (p * 100000) SCALAR_7 + 100) ∧
    (∀ x m : Int,
      x * m ≤ SCALAR_7 * fixed_mul_ceil x m SCALAR_7 ∧
      SCALAR_7 * fixed_mul_ceil x m SCALAR_7 < x * m + SCALAR_7 ∧
      SCALAR_7 * fixed_mul_floor x m SCALAR_7 ≤ x * m ∧
      x * m < SCALAR_7 * fixed_mul_floor x m SCALAR_7 + SCALAR_7) ∧
    scale_auction 1300 ⟨[(0, 1)], [(1, 1)], 1000⟩ 99 =
      .ok (⟨[(0, 1)], [], 1000⟩, some ⟨[], [(1, 1)], 1000⟩) := by
  refine ⟨?_, ?_, by decide⟩
  · intro a p
    have he : a * (p * 100000) = (a * p) * 100000 := by ring
    unfold fixed_mul_ceil fixed_mul_floor SCALAR_7
    rw [he]
    generalize a * p = t
    omega
  · intro x m
    unfold fixed_mul_ceil fixed_mul_floor SCALAR_7
    generalize x * m = t
    omega

/-- Claim C9: the percent split of `scale_auction` conserves each base amount
exactly (`to_fill_base + remaining_base = amount` for the ceil split of bids
and the floor split of lots); at 100% the remainder is always `none`, so a
100% fill always deletes the auction from storage. -/
theorem C9_conservation (seq : Nat) (ad : AuctionData) :
    (∀ amount percent : Int,
      fixed_mul_ceil amount percent SCALAR_7 +
        (amount - fixed_mul_ceil amount percent SCALAR_7) = amount ∧
      fixed_mul_floor amount percent SCALAR_7 +
        (amount - fixed_mul_floor amount percent SCALAR_7) = amount) ∧
    (∃ tf, scale_auction seq ad 100 = .ok (tf, none)) ∧
    (∀ (st : AuctionStore) (t : Nat) (u f : Address) (res : AuctionData)
        (st2 : AuctionStore),
      fill st seq t u f 100 = .ok (res, st2) → store_get st2 t u = none) := by
  refine ⟨fun amount percent => ⟨by ring, by ring⟩,
    ⟨_, scale_auction_100_remainder_none seq ad⟩, ?_⟩
  intro st t u f res st2 h
  simp only [fill] at h
  split at h
  · simp at h
  · split at h
    · simp at h
    · next orig hget =>
      split at h
      · simp at h
      · next scaled hscale =>
        have hs2 : scaled.2 = none := by
          have hn := scale_auction_100_remainder_none seq orig
          rw [hscale, Except.ok.injEq] at hn
          rw [hn]
        split at h
        · simp at h
        · next ty hft =>
          split at h
          · next r hrem =>
            rw [hrem] at hs2
            exact Option.noConfusion hs2
          · next hrem =>
            rw [Except.ok.injEq, Prod.mk.injEq] at h
            rw [← h.2]
            exact store_get_store_del_self t u st

/-- Claim C9, witness: a 100% fill of a stored auction leaves no auction
under the key. -/
theorem C9_conservation_witness :
    store_get ([] : AuctionStore) 0 7 = none :=
  (C9_conservation 1100 ⟨[], [], 0⟩).2.2 [((0, 7), ⟨[(1, 100)], [(2, 100)], 1000⟩)] 0 7 8
    ⟨[(1, 100)], [(2, 50)], 1000⟩ [] (by decide)

end Blend

namespace Blend

/-- Claim C10: filling in the creation block (`ledger_sequence =
auction.block`, so `Δb = 0`) does not panic: the modifiers are
`bid_mod = 1e7`, `lot_mod = 0`, the scaled lot map is empty, and the scaled
bid map holds the full percent-scaled (ceil) amount of every bid entry. -/
theorem C10_same_block_scale (ad : AuctionData) (p : Nat)
    (hp1 : 1 ≤ p) (hp2 : p ≤ 100)
    (hpos : ∀ kv ∈ ad.bid, 0 < kv.2)
    (hkeys : (ad.bid.map Prod.fst).Nodup) :
    auction_modifiers 0 = (SCALAR_7, 0) ∧
    (scale_auction ad.block ad p).map Prod.fst =
      .ok ⟨ad.bid.map (fun kv => (kv.1, fixed_mul_ceil kv.2 (Int.ofNat p * 100000) SCALAR_7)),
        [], ad.block⟩ := by
  have hmods : auction_modifiers 0 = (SCALAR_7, 0) := by
    unfold auction_modifiers
    rw [if_neg (by omega)]
    simp
  refine ⟨hmods, ?_⟩
  have hpm : (0 : Int) < Int.ofNat p * 100000 := by
    rw [show (Int.ofNat p : Int) = (p : Int) from rfl]
    omega
  have hposc : ∀ kv ∈ ad.bid, 0 < fixed_mul_ceil kv.2 (Int.ofNat p * 100000) SCALAR_7 :=
    fun kv hkv => fixed_mul_ceil_pos _ _ (hpos kv hkv) hpm
  simp only [scale_auction]
  rw [if_neg (by omega)]
  rw [Nat.sub_self, show (Int.ofNat 0 : Int) = 0 from rfl, hmods]
  have hbid := scale_bid_entries_fst_of_full (Int.ofNat p * 100000) ad.bid [] []
    hposc hkeys (by simp)
  have hlot := scale_lot_entries_fst_of_zero (Int.ofNat p * 100000) ad.lot [] []
  split
  · simp only [Except.map, hbid, hlot]
    simp
  · simp only [Except.map, hbid, hlot]
    simp

/-- Claim C10, witness: a 50% fill of a two-bid auction in its creation
block. -/
theorem C10_same_block_scale_witness :
    auction_modifiers 0 = (SCALAR_7, 0) ∧
    (scale_auction 1000 ⟨[(0, 5), (1, 7)], [(2, 9)], 1000⟩ 50).map Prod.fst =
      .ok ⟨([(0, 5), (1, 7)] : AMap).map
          (fun kv => (kv.1, fixed_mul_ceil kv.2 (Int.ofNat 50 * 100000) SCALAR_7)),
        [], 1000⟩ :=
  C10_same_block_scale ⟨[(0, 5), (1, 7)], [(2, 9)], 1000⟩ 50 (by decide) (by decide)
    (by decide) (by decide)

end Blend
